import Mathlib

/-!
Verification of the Kaleidoscope chapter-2 front end (`toy_ch2.cpp`):
a character-level tokenizer (`gettok`) and a recursive-descent parser with
operator-precedence climbing (`ParseExpression` / `ParseBinOpRHS`).

Modelling choices:
* The pull-based character source (`getchar`) is a `List Char`; the one
  buffered lookahead character (`static int LastChar`) is an `Option Char`
  (`none` models `EOF`).
* `double` literal values are modelled as exact rationals (`Rat`): the
  parser never computes with `NumVal`, it only stores it, so the exact
  decimal value of the literal is the faithful content of the token.
* General recursion (the comment restart in `gettok`, and the mutually
  recursive parser) is embedded with an explicit fuel parameter; fuel
  sufficiency is proved separately, so running out of fuel is a proof
  obligation, not a behaviour of the model.
* The C globals `CurTok`/`IdentifierStr`/`NumVal` become a token stream
  `List Token` whose head is the current token and whose tokens carry
  their payloads; `getNextToken` is `advance`, reading `CurTok` is `curTok`.
-/

/-- C `isspace` on the ASCII range: space (32), tab (9), newline (10),
vertical tab (11), form feed (12), carriage return (13). -/
def isspace (c : Char) : Bool := c.toNat = 32 || (9 ≤ c.toNat && c.toNat ≤ 13)

/-- C `isdigit`: ASCII digits, codes 48 to 57. -/
def isdigit (c : Char) : Bool := 48 ≤ c.toNat && c.toNat ≤ 57

/-- C `isalpha`: ASCII letters, codes 65 to 90 and 97 to 122. -/
def isalpha (c : Char) : Bool :=
  (65 ≤ c.toNat && c.toNat ≤ 90) || (97 ≤ c.toNat && c.toNat ≤ 122)

/-- C `isalnum`: letter or digit. -/
def isalnum (c : Char) : Bool := isalpha c || isdigit c

/-- Numeric value of a run of ASCII digits, most significant first. -/
def digitsToNat (l : List Char) : Nat := l.foldl (fun n c => 10 * n + (c.toNat - 48)) 0

/-- `strtod` restricted to the strings the lexer feeds it (runs of digits
and dots): parse leading digits, then, if a dot follows, parse the digits
after it as the fractional part and stop at anything else (in particular
at a second dot).  A string with no digits (such as "..") yields 0,
mirroring `strtod`'s permissive behaviour.  The value is exact: a decimal
rational instead of the nearest `double`. -/
def strtod (s : String) : Rat :=
  let l := s.toList
  let ip := l.takeWhile isdigit
  let rest := l.dropWhile isdigit
  match rest with
  | '.' :: rest2 =>
    let fp := rest2.takeWhile isdigit
    mkRat (digitsToNat ip * 10 ^ fp.length + digitsToNat fp) (10 ^ fp.length)
  | _ => mkRat (digitsToNat ip) 1

/-- The token kind returned by `gettok` (the C `enum Token` plus plain
characters), with the side-channel payloads `IdentifierStr` and `NumVal`
attached to the token that fills them in. -/
inductive Token where
  | eof
  | kdef
  | kextern
  | ident (s : String)
  | number (v : Rat)
  | sym (c : Char)
deriving DecidableEq, Repr

/-- Tokenizer state: the buffered lookahead character `LastChar`
(`none` once `getchar` has returned `EOF`) and the remaining input. -/
structure LexState where
  lastChar : Option Char
  input : List Char
deriving DecidableEq, Repr

/-- The whitespace-skipping loop `while (isspace(LastChar)) LastChar = getchar();`. -/
def skipSpaces (lc : Option Char) (l : List Char) : Option Char × List Char :=
  match lc with
  | none => (none, l)
  | some c =>
    if isspace c then
      match l with
      | [] => (none, [])
      | x :: xs => skipSpaces (some x) xs
    else (some c, l)

/-- The identifier loop `while (isalnum((LastChar = getchar()))) IdentifierStr += LastChar;`:
reads the next character, appends it while alphanumeric, and leaves the
first non-alphanumeric character (or `EOF`) in the lookahead slot. -/
def identLoop (acc : String) (l : List Char) : String × Option Char × List Char :=
  match l with
  | [] => (acc, none, [])
  | c :: rest => if isalnum c then identLoop (acc.push c) rest else (acc, some c, rest)

/-- The number loop `do { NumStr += LastChar; LastChar = getchar(); } while (isdigit(LastChar) || LastChar == '.');`:
appends the current character unconditionally, then keeps consuming
digits and dots. -/
def numLoop (acc : String) (c : Char) (l : List Char) : String × Option Char × List Char :=
  let acc2 := acc.push c
  match l with
  | [] => (acc2, none, [])
  | c2 :: rest =>
    if isdigit c2 || c2 = '.' then numLoop acc2 c2 rest else (acc2, some c2, rest)

/-- The comment loop `do LastChar = getchar(); while (LastChar != EOF && LastChar != '\n' && LastChar != '\r');`:
discards characters up to, and not including, the next newline or
carriage return; `none` means the input ended inside the comment. -/
def commentLoop (l : List Char) : Option Char × List Char :=
  match l with
  | [] => (none, [])
  | c :: rest => if c = '\n' || c = '\r' then (some c, rest) else commentLoop rest

/-- `gettok` with fuel for the tail-recursive restart after a comment.
Each restart consumes at least one input character, so fuel
`input.length + 1` (used by `gettok` below) never runs out; the fuel-0
result is arbitrary and proved unreachable. -/
def gettokF : Nat → LexState → Token × LexState
  | 0, st => (Token.eof, st)
  | fuel+1, st =>
    match skipSpaces st.lastChar st.input with
    | (none, l) => (Token.eof, ⟨none, l⟩)
    | (some c, l) =>
      if isalpha c then
        match identLoop (String.singleton c) l with
        | (s, lc2, l2) =>
          if s = "def" then (Token.kdef, ⟨lc2, l2⟩)
          else if s = "extern" then (Token.kextern, ⟨lc2, l2⟩)
          else (Token.ident s, ⟨lc2, l2⟩)
      else if isdigit c || c = '.' then
        match numLoop "" c l with
        | (s, lc2, l2) => (Token.number (strtod s), ⟨lc2, l2⟩)
      else if c = '#' then
        match commentLoop l with
        | (none, l2) => (Token.eof, ⟨none, l2⟩)
        | (some c2, l2) => gettokF fuel ⟨some c2, l2⟩
      else
        (Token.sym c, ⟨l.head?, l.tail⟩)

/-- The C `gettok`: return the next token and the new tokenizer state. -/
def gettok (st : LexState) : Token × LexState := gettokF (st.input.length + 1) st

/-- Run `gettok` repeatedly until it reports `eof`, collecting the tokens. -/
def tokenizeF : Nat → LexState → List Token
  | 0, _ => []
  | fuel+1, st =>
    match gettok st with
    | (Token.eof, _) => []
    | (t, st2) => t :: tokenizeF fuel st2

/-- Initial tokenizer state for a given input string: `LastChar` starts
as a space (`static int LastChar = ' ';`). -/
def initLex (s : String) : LexState := ⟨some ' ', s.toList⟩

/-- Token sequence of an input string.  Every produced token consumes at
least one unit of the (lookahead + input) measure, so `s.length + 1`
iterations always reach `eof`. -/
def tokenize (s : String) : List Token := tokenizeF (s.length + 1) (initLex s)

/-- Expression AST: the closed variant set `NumberExprAST`,
`VariableExprAST`, `BinaryExprAST`, `CallExprAST`. -/
inductive ExprAST where
  | NumberExpr (val : Rat)
  | VariableExpr (name : String)
  | BinaryExpr (op : Char) (lhs rhs : ExprAST)
  | CallExpr (callee : String) (args : List ExprAST)
deriving Repr

/-- `PrototypeAST`: function name and argument names. -/
structure PrototypeAST where
  name : String
  args : List String
deriving Repr

/-- `FunctionAST`: a prototype paired with one body expression. -/
structure FunctionAST where
  proto : PrototypeAST
  body : ExprAST
deriving Repr

/-- Parser state: the remaining token stream.  The head is `CurTok`;
an empty list is the exhausted stream, on which `curTok` is `eof`
forever, matching the C token buffer after end of input. -/
abbrev PState := List Token

/-- The current token `CurTok`. -/
def curTok (st : PState) : Token := st.headD Token.eof

/-- `getNextToken()`: drop the current token. -/
def advance (st : PState) : PState := st.tail

/-- The `BinopPrecedence` map as populated in `main`
(`'<'` 10, `'+'` 20, `'-'` 20, `'*'` 40); `std::map::operator[]` yields 0
for every other character. -/
def BinopPrecedence (c : Char) : Int :=
  if c = '<' then 10
  else if c = '+' then 20
  else if c = '-' then 20
  else if c = '*' then 40
  else 0

/-- `GetTokPrecedence()`: -1 unless the current token is an ASCII
character with a positive entry in `BinopPrecedence`. -/
def GetTokPrecedence (t : Token) : Int :=
  match t with
  | Token.sym c =>
    if 127 < c.toNat then -1
    else if BinopPrecedence c ≤ 0 then -1
    else BinopPrecedence c
  | _ => -1

/-- The character stored as `BinaryExprAST::Op`.  `BinOp` is the raw
`CurTok` int; for a plain character token it is that character, and for
the negative `enum Token` codes the `int` to `char` truncation yields a
high byte value.  The non-`sym` cases are unreachable whenever the
minimum precedence is at least 0. -/
def tokOpChar : Token → Char
  | Token.sym c => c
  | Token.eof => Char.ofNat 255
  | Token.kdef => Char.ofNat 254
  | Token.kextern => Char.ofNat 253
  | Token.ident _ => Char.ofNat 252
  | Token.number _ => Char.ofNat 251

/-- Result of a parse operation: an AST node, the parse failure signal
(`nullptr` in C, tagged here with the `LogError` message), or fuel
exhaustion of the embedding (proved unreachable at the stated fuel). -/
inductive PResult (α : Type) where
  | ok (a : α)
  | err (msg : String)
  | fuelOut
deriving Repr

/-- `ParseNumberExpr`: wrap `NumVal` (the payload of the current number
token) and advance past it. -/
def ParseNumberExpr (v : Rat) (st : PState) : PResult ExprAST × PState :=
  (PResult.ok (ExprAST.NumberExpr v), advance st)

mutual

/-- `ParseExpression`: `ParsePrimary` then `ParseBinOpRHS(0, lhs)`. -/
def ParseExpression : Nat → PState → PResult ExprAST × PState
  | 0, st => (PResult.fuelOut, st)
  | fuel+1, st =>
    match ParsePrimary fuel st with
    | (PResult.ok lhs, st1) => ParseBinOpRHS fuel 0 lhs st1
    | r => r

/-- `ParsePrimary`: dispatch on `CurTok`. -/
def ParsePrimary : Nat → PState → PResult ExprAST × PState
  | 0, st => (PResult.fuelOut, st)
  | fuel+1, st =>
    match curTok st with
    | Token.ident s => ParseIdentifierExpr fuel s st
    | Token.number v => ParseNumberExpr v st
    | Token.sym c =>
      if c = '(' then ParseParenExpr fuel st
      else (PResult.err "unknown token when expecting an expression", st)
    | _ => (PResult.err "unknown token when expecting an expression", st)

/-- `ParseParenExpr`: eat `'('`, parse an expression, require and eat
`')'`, and return the inner expression unwrapped. -/
def ParseParenExpr : Nat → PState → PResult ExprAST × PState
  | 0, st => (PResult.fuelOut, st)
  | fuel+1, st =>
    match ParseExpression fuel (advance st) with
    | (PResult.ok v, st2) =>
      if curTok st2 = Token.sym ')' then (PResult.ok v, advance st2)
      else (PResult.err "expected ')'", st2)
    | r => r

/-- `ParseIdentifierExpr`: a plain variable reference, or a call whose
argument list is read by `ParseArgs`; `idName` is the `IdentifierStr`
payload of the current identifier token. -/
def ParseIdentifierExpr : Nat → String → PState → PResult ExprAST × PState
  | 0, _, st => (PResult.fuelOut, st)
  | fuel+1, idName, st =>
    let st1 := advance st
    if curTok st1 ≠ Token.sym '(' then (PResult.ok (ExprAST.VariableExpr idName), st1)
    else
      let st2 := advance st1
      if curTok st2 = Token.sym ')' then
        (PResult.ok (ExprAST.CallExpr idName []), advance st2)
      else
        match ParseArgs fuel [] st2 with
        | (PResult.ok args, st3) => (PResult.ok (ExprAST.CallExpr idName args), advance st3)
        | (PResult.err m, st3) => (PResult.err m, st3)
        | (PResult.fuelOut, st3) => (PResult.fuelOut, st3)

/-- The argument-list loop of `ParseIdentifierExpr`: parse one
expression per iteration, stop at `')'` (left for the caller to eat),
continue past `','`, and fail on anything else. -/
def ParseArgs : Nat → List ExprAST → PState → PResult (List ExprAST) × PState
  | 0, _, st => (PResult.fuelOut, st)
  | fuel+1, acc, st =>
    match ParseExpression fuel st with
    | (PResult.ok arg, st1) =>
      if curTok st1 = Token.sym ')' then (PResult.ok (acc ++ [arg]), st1)
      else if curTok st1 ≠ Token.sym ',' then
        (PResult.err "Expected ')' or ',' in argument list", st1)
      else ParseArgs fuel (acc ++ [arg]) (advance st1)
    | (PResult.err m, st1) => (PResult.err m, st1)
    | (PResult.fuelOut, st1) => (PResult.fuelOut, st1)

/-- `ParseBinOpRHS`: the precedence-climbing loop.  Return `lhs` when
the current token's precedence is below `exprPrec`; otherwise consume
the operator, parse a primary, climb at `tokPrec + 1` when the next
operator binds tighter, fold a `BinaryExpr`, and continue the loop. -/
def ParseBinOpRHS : Nat → Int → ExprAST → PState → PResult ExprAST × PState
  | 0, _, _, st => (PResult.fuelOut, st)
  | fuel+1, exprPrec, lhs, st =>
    let tokPrec := GetTokPrecedence (curTok st)
    if tokPrec < exprPrec then (PResult.ok lhs, st)
    else
      let binOp := curTok st
      let st1 := advance st
      match ParsePrimary fuel st1 with
      | (PResult.ok rhs, st2) =>
        let nextPrec := GetTokPrecedence (curTok st2)
        if tokPrec < nextPrec then
          match ParseBinOpRHS fuel (tokPrec + 1) rhs st2 with
          | (PResult.ok rhs2, st3) =>
            ParseBinOpRHS fuel exprPrec (ExprAST.BinaryExpr (tokOpChar binOp) lhs rhs2) st3
          | r => r
        else
          ParseBinOpRHS fuel exprPrec (ExprAST.BinaryExpr (tokOpChar binOp) lhs rhs) st2
      | r => r

end

/-- The prototype argument loop
`while (getNextToken() == tok_identifier) ArgNames.push_back(IdentifierStr);`:
advance first (eating `'('` on entry), then collect identifiers. -/
def ProtoArgs (acc : List String) (st : PState) : List String × PState :=
  match st with
  | [] => (acc, [])
  | _ :: rest =>
    match curTok rest with
    | Token.ident s => ProtoArgs (acc ++ [s]) rest
    | _ => (acc, rest)

/-- `ParsePrototype`: `id '(' id* ')'` with one error message per
missing piece. -/
def ParsePrototype (st : PState) : PResult PrototypeAST × PState :=
  match curTok st with
  | Token.ident fnName =>
    let st1 := advance st
    if curTok st1 ≠ Token.sym '(' then (PResult.err "Expected '(' in prototype", st1)
    else
      match ProtoArgs [] st1 with
      | (argNames, st2) =>
        if curTok st2 ≠ Token.sym ')' then (PResult.err "Expected ')' in prototype", st2)
        else (PResult.ok ⟨fnName, argNames⟩, advance st2)
  | _ => (PResult.err "Expected function name in prototype", st)

/-- `ParseDefinition`: eat `def`, parse a prototype, parse the body
expression; propagate either failure. -/
def ParseDefinition (fuel : Nat) (st : PState) : PResult FunctionAST × PState :=
  match ParsePrototype (advance st) with
  | (PResult.ok proto, st2) =>
    match ParseExpression fuel st2 with
    | (PResult.ok e, st3) => (PResult.ok ⟨proto, e⟩, st3)
    | (PResult.err m, st3) => (PResult.err m, st3)
    | (PResult.fuelOut, st3) => (PResult.fuelOut, st3)
  | (PResult.err m, st2) => (PResult.err m, st2)
  | (PResult.fuelOut, st2) => (PResult.fuelOut, st2)

/-- `ParseExtern`: eat `extern`, parse a prototype. -/
def ParseExtern (st : PState) : PResult PrototypeAST × PState :=
  ParsePrototype (advance st)

/-- `ParseTopLevelExpr`: parse one expression and wrap it in an
anonymous `FunctionAST`. -/
def ParseTopLevelExpr (fuel : Nat) (st : PState) : PResult FunctionAST × PState :=
  match ParseExpression fuel st with
  | (PResult.ok e, st1) => (PResult.ok ⟨⟨"__anon_expr", []⟩, e⟩, st1)
  | (PResult.err m, st1) => (PResult.err m, st1)
  | (PResult.fuelOut, st1) => (PResult.fuelOut, st1)

/-- Tokenize a source string and parse it as one expression, at the
fuel proved sufficient below. -/
def parseExprTop (s : String) : PResult ExprAST × PState :=
  let ts := tokenize s
  ParseExpression (3 * ts.length + 3) ts

/-- C1: mixing operators of different precedence nests the
higher-precedence operator deeper: "1+2*3" parses as
BinaryExpr('+', 1, BinaryExpr('*', 2, 3)) and "1*2+3" parses as
BinaryExpr('+', BinaryExpr('*', 1, 2), 3). -/
theorem precedence_nesting :
    parseExprTop "1+2*3" = (PResult.ok (ExprAST.BinaryExpr '+' (ExprAST.NumberExpr 1)
        (ExprAST.BinaryExpr '*' (ExprAST.NumberExpr 2) (ExprAST.NumberExpr 3))), []) ∧
    parseExprTop "1*2+3" = (PResult.ok (ExprAST.BinaryExpr '+'
        (ExprAST.BinaryExpr '*' (ExprAST.NumberExpr 1) (ExprAST.NumberExpr 2))
        (ExprAST.NumberExpr 3)), []) :=
  ⟨rfl, rfl⟩

/-- C2: chains of equal-precedence operators group left-to-right: for
all literal values a, b, c the stream a + b + c parses to
BinaryExpr('+', BinaryExpr('+', a, b), c), never the right-nested
form, and "1+2+3" parses accordingly. -/
theorem left_associativity : ∀ a b c : Rat,
    ParseExpression 18 [Token.number a, Token.sym '+', Token.number b, Token.sym '+', Token.number c]
      = (PResult.ok (ExprAST.BinaryExpr '+'
          (ExprAST.BinaryExpr '+' (ExprAST.NumberExpr a) (ExprAST.NumberExpr b))
          (ExprAST.NumberExpr c)), []) ∧
    (∀ st2, ParseExpression 18 [Token.number a, Token.sym '+', Token.number b, Token.sym '+', Token.number c]
      ≠ (PResult.ok (ExprAST.BinaryExpr '+' (ExprAST.NumberExpr a)
          (ExprAST.BinaryExpr '+' (ExprAST.NumberExpr b) (ExprAST.NumberExpr c))), st2)) ∧
    parseExprTop "1+2+3" = (PResult.ok (ExprAST.BinaryExpr '+'
        (ExprAST.BinaryExpr '+' (ExprAST.NumberExpr 1) (ExprAST.NumberExpr 2))
        (ExprAST.NumberExpr 3)), []) := by
  intro a b c
  have hL : ParseExpression 18
      [Token.number a, Token.sym '+', Token.number b, Token.sym '+', Token.number c]
      = (PResult.ok (ExprAST.BinaryExpr '+'
          (ExprAST.BinaryExpr '+' (ExprAST.NumberExpr a) (ExprAST.NumberExpr b))
          (ExprAST.NumberExpr c)), []) := rfl
  refine ⟨hL, ?_, rfl⟩
  intro st2 h
  rw [hL] at h
  simp at h

/-- C2 witness: the never-right-nested conjunct at the concrete
values 1, 2, 3 and the empty final stream. -/
theorem left_associativity_witness :
    ParseExpression 18 [Token.number 1, Token.sym '+', Token.number 2, Token.sym '+', Token.number 3]
      ≠ (PResult.ok (ExprAST.BinaryExpr '+' (ExprAST.NumberExpr 1)
          (ExprAST.BinaryExpr '+' (ExprAST.NumberExpr 2) (ExprAST.NumberExpr 3))), []) :=
  (left_associativity 1 2 3).2.1 []

/-- C3 counterexample: "foo(1," does not fail with the
MalformedArgumentList message.  After the comma is consumed the loop
re-enters `ParseExpression`, which fails in `ParsePrimary` on the
exhausted stream, and that propagated message is
"unknown token when expecting an expression". -/
theorem malformed_arg_error_counterexample :
    (parseExprTop "foo(1,").1 = PResult.err "unknown token when expecting an expression" ∧
    (parseExprTop "foo(1,").1 ≠ PResult.err "Expected ')' or ',' in argument list" := by
  refine ⟨rfl, ?_⟩
  intro h
  rw [show (parseExprTop "foo(1,").1
      = PResult.err "unknown token when expecting an expression" from rfl] at h
  injection h with h2
  exact absurd h2 (by decide)

/-- C3 amended: "foo(1," fails with the propagated UnexpectedToken
message "unknown token when expecting an expression" (the comma is
consumed and the next argument sub-parse fails at end of input), and
"(1+2" fails with the UnclosedParen message "expected ')'"; both are
structured failures, not crashes or partial trees. -/
theorem malformed_input_errors :
    parseExprTop "foo(1," = (PResult.err "unknown token when expecting an expression", []) ∧
    parseExprTop "(1+2" = (PResult.err "expected ')'", []) :=
  ⟨rfl, rfl⟩

/-- C5: the precedence lookup returns 10 for '<', 20 for '+', 20 for
'-', 40 for '*', and -1 for every other character token and every
non-character token kind, and repeated lookups agree. -/
theorem binop_precedence_table :
    GetTokPrecedence (Token.sym '<') = 10 ∧
    GetTokPrecedence (Token.sym '+') = 20 ∧
    GetTokPrecedence (Token.sym '-') = 20 ∧
    GetTokPrecedence (Token.sym '*') = 40 ∧
    (∀ c : Char, c ≠ '<' → c ≠ '+' → c ≠ '-' → c ≠ '*' →
      GetTokPrecedence (Token.sym c) = -1) ∧
    GetTokPrecedence Token.eof = -1 ∧
    GetTokPrecedence Token.kdef = -1 ∧
    GetTokPrecedence Token.kextern = -1 ∧
    (∀ s, GetTokPrecedence (Token.ident s) = -1) ∧
    (∀ v, GetTokPrecedence (Token.number v) = -1) ∧
    (∀ t, GetTokPrecedence t = GetTokPrecedence t) := by
  refine ⟨rfl, rfl, rfl, rfl, ?_, rfl, rfl, rfl, fun s => rfl, fun v => rfl, fun t => rfl⟩
  intro c h1 h2 h3 h4
  simp [GetTokPrecedence, BinopPrecedence, h1, h2, h3, h4]

/-- C5 witness: a character absent from the table (';') maps to -1. -/
theorem binop_precedence_table_witness :
    GetTokPrecedence (Token.sym ';') = -1 :=
  binop_precedence_table.2.2.2.2.1 ';' (by decide) (by decide) (by decide) (by decide)

theorem skipSpaces_length (l : List Char) : ∀ lc, (skipSpaces lc l).2.length ≤ l.length := by
  induction l with
  | nil =>
    intro lc
    cases lc with
    | none => simp [skipSpaces]
    | some c =>
      rw [skipSpaces]
      split <;> simp
  | cons x xs ih =>
    intro lc
    cases lc with
    | none => simp [skipSpaces]
    | some c =>
      rw [skipSpaces]
      split
      · exact Nat.le_trans (ih (some x)) (Nat.le_succ _)
      · simp

theorem commentLoop_spec (l : List Char) :
    ((commentLoop l).1 = none ∧ (commentLoop l).2 = []) ∨ (commentLoop l).2.length < l.length := by
  induction l with
  | nil => exact Or.inl ⟨rfl, rfl⟩
  | cons c rest ih =>
    rw [commentLoop]
    split
    · exact Or.inr (by simp)
    · rcases ih with h | h
      · exact Or.inl h
      · exact Or.inr (Nat.lt_trans h (by simp))

theorem commentLoop_nonewline (l : List Char) (h : ∀ c ∈ l, c ≠ '\n' ∧ c ≠ '\r') :
    commentLoop l = (none, []) := by
  induction l with
  | nil => rfl
  | cons c rest ih =>
    rw [commentLoop]
    split
    · next hcond =>
      exfalso
      obtain ⟨h1, h2⟩ := h c (List.mem_cons_self _ _)
      simp [h1, h2] at hcond
    · exact ih (fun c2 hc2 => h c2 (List.mem_cons_of_mem _ hc2))

theorem commentLoop_append (l : List Char) (d : Char) (rest : List Char)
    (h : ∀ c ∈ l, c ≠ '\n' ∧ c ≠ '\r') (hd : d = '\n' ∨ d = '\r') :
    commentLoop (l ++ d :: rest) = (some d, rest) := by
  induction l with
  | nil =>
    rw [List.nil_append, commentLoop]
    split
    · rfl
    · next hcond =>
      exfalso
      rcases hd with h1 | h1 <;> simp [h1] at hcond
  | cons c l2 ih =>
    rw [List.cons_append, commentLoop]
    split
    · next hcond =>
      exfalso
      obtain ⟨h1, h2⟩ := h c (List.mem_cons_self _ _)
      simp [h1, h2] at hcond
    · exact ih (fun c2 hc2 => h c2 (List.mem_cons_of_mem _ hc2))

theorem gettokF_eof_none : ∀ (fuel : Nat) (st : LexState), st.input.length < fuel →
    (gettokF fuel st).1 = Token.eof → (gettokF fuel st).2.lastChar = none := by
  intro fuel
  induction fuel with
  | zero => intro st hb; omega
  | succ f ih =>
    intro st hb
    rw [gettokF]
    rcases hs : skipSpaces st.lastChar st.input with ⟨lc, l⟩
    have hl : l.length ≤ st.input.length := by
      have h2 := skipSpaces_length st.input st.lastChar
      rw [hs] at h2
      exact h2
    cases lc with
    | none => intro _; rfl
    | some c =>
      dsimp only
      split
      · rcases hi : identLoop (String.singleton c) l with ⟨s, lc2, l2⟩
        dsimp only
        split
        · intro h; simp at h
        · split
          · intro h; simp at h
          · intro h; simp at h
      · split
        · rcases hn : numLoop "" c l with ⟨s, lc2, l2⟩
          intro h; simp at h
        · split
          · rcases hc : commentLoop l with ⟨olc, l2⟩
            cases olc with
            | none => intro _; rfl
            | some c2 =>
              dsimp only
              apply ih ⟨some c2, l2⟩
              rcases commentLoop_spec l with ⟨h1, _⟩ | hlen
              · rw [hc] at h1; simp at h1
              · rw [hc] at hlen
                simp only at hlen
                simp only [LexState.input]
                omega
          · intro h; simp at h

theorem gettok_eof_none (st st2 : LexState) (h : gettok st = (Token.eof, st2)) :
    st2.lastChar = none := by
  have h2 := gettokF_eof_none (st.input.length + 1) st (Nat.lt_succ_self _)
  unfold gettok at h
  rw [h] at h2
  exact h2 rfl

theorem skipSpaces_none (l : List Char) : skipSpaces none l = (none, l) := by
  rw [skipSpaces]

theorem gettok_none (l : List Char) : gettok ⟨none, l⟩ = (Token.eof, ⟨none, l⟩) := by
  unfold gettok
  rw [gettokF]
  dsimp only
  rw [skipSpaces_none]

/-- C8: once `gettok` has reported end of input, every further call
returns `eof` again and leaves the tokenizer state unchanged. -/
theorem eof_idempotent (st st2 : LexState) (h : gettok st = (Token.eof, st2)) :
    gettok st2 = (Token.eof, st2) := by
  have h2 := gettok_eof_none st st2 h
  cases st2 with
  | mk lc inp =>
    simp only [LexState.lastChar] at h2
    subst h2
    exact gettok_none inp

/-- C8 witness: from the empty source, the first call reports `eof` and
the follow-up call is a fixed point. -/
theorem eof_idempotent_witness : gettok ⟨none, []⟩ = (Token.eof, ⟨none, []⟩) :=
  eof_idempotent ⟨some ' ', []⟩ ⟨none, []⟩ (by decide)

theorem digitdot_not_space (c : Char) (h : isdigit c = true ∨ c = '.') : isspace c = false := by
  rcases h with h | h
  · simp only [isdigit, Bool.and_eq_true, decide_eq_true_eq] at h
    simp only [isspace, Bool.or_eq_false_iff, Bool.and_eq_false_iff, decide_eq_false_iff_not]
    omega
  · subst h; decide

theorem digitdot_not_alpha (c : Char) (h : isdigit c = true ∨ c = '.') : isalpha c = false := by
  rcases h with h | h
  · simp only [isdigit, Bool.and_eq_true, decide_eq_true_eq] at h
    simp only [isalpha, Bool.or_eq_false_iff, Bool.and_eq_false_iff, decide_eq_false_iff_not]
    omega
  · subst h; decide

theorem numLoop_all : ∀ (l : List Char), (∀ c2 ∈ l, isdigit c2 = true ∨ c2 = '.') →
    ∀ (acc : String) (c : Char), numLoop acc c l = (String.mk (acc.data ++ c :: l), none, []) := by
  intro l
  induction l with
  | nil =>
    intro _ acc c
    show (acc.push c, none, ([] : List Char)) = _
    simp [String.push]
  | cons c2 rest ih =>
    intro h acc c
    rw [numLoop]
    split
    · rw [ih (fun d hd => h d (List.mem_cons_of_mem _ hd)) (acc.push c) c2]
      simp [String.push]
    · next hcond =>
      exfalso
      rcases h c2 (List.mem_cons_self _ _) with hd | hd <;> simp [hd] at hcond

/-- C6: a nonempty run of digits and dots is lexed as a single
NumberLiteral token whose value is the permissive strtod conversion of
the run; "42" parses to NumberExpr 42 and "3.14" to
NumberExpr (314/100) (the exact rational 3.14), while the malformed
".." tokenizes to the value 0 instead of failing. -/
theorem number_tokenization :
    (∀ l : List Char, l ≠ [] → (∀ c ∈ l, isdigit c = true ∨ c = '.') →
      tokenize (String.mk l) = [Token.number (strtod (String.mk l))]) ∧
    parseExprTop "42" = (PResult.ok (ExprAST.NumberExpr 42), []) ∧
    parseExprTop "3.14" = (PResult.ok (ExprAST.NumberExpr (mkRat 314 100)), []) ∧
    tokenize ".." = [Token.number 0] ∧
    parseExprTop ".." = (PResult.ok (ExprAST.NumberExpr 0), []) := by
  refine ⟨?_, rfl, rfl, rfl, rfl⟩
  intro l hne h
  obtain ⟨c, rest, rfl⟩ : ∃ c rest, l = c :: rest := by
    cases l with
    | nil => exact absurd rfl hne
    | cons c rest => exact ⟨c, rest, rfl⟩
  have hsp : isspace c = false := digitdot_not_space c (h c (List.mem_cons_self _ _))
  have hal : isalpha c = false := digitdot_not_alpha c (h c (List.mem_cons_self _ _))
  have hdd : (isdigit c || c = '.') = true := by
    rcases h c (List.mem_cons_self _ _) with hd | hd <;> simp [hd]
  have hss : skipSpaces (some ' ') (c :: rest) = (some c, rest) := by
    rw [skipSpaces.eq_def]
    dsimp only
    rw [if_pos (by decide)]
    rw [skipSpaces.eq_def]
    dsimp only
    rw [if_neg (by simp [hsp])]
  have hnum : numLoop "" c rest = (String.mk (c :: rest), none, []) := by
    have h2 := numLoop_all rest (fun d hd => h d (List.mem_cons_of_mem _ hd)) "" c
    simpa using h2
  have hgt : gettok ⟨some ' ', c :: rest⟩
      = (Token.number (strtod (String.mk (c :: rest))), ⟨none, []⟩) := by
    unfold gettok
    rw [gettokF]
    dsimp only
    rw [hss]
    dsimp only
    rw [if_neg (by simp [hal]), if_pos hdd, hnum]
  have hmain : tokenizeF (rest.length + 1 + 1) ⟨some ' ', c :: rest⟩
      = [Token.number (strtod (String.mk (c :: rest)))] := by
    rw [tokenizeF]
    rw [hgt]
    dsimp only
    rw [tokenizeF]
    rw [gettok_none]
  have hlen : (String.mk (c :: rest)).length = rest.length + 1 := by
    simp [String.length]
  unfold tokenize
  rw [hlen]
  exact hmain

/-- C6 witness: the general digit-run conjunct at the concrete list
for "42". -/
theorem number_tokenization_witness :
    tokenize (String.mk ['4', '2']) = [Token.number (strtod (String.mk ['4', '2']))] :=
  number_tokenization.1 ['4', '2'] (by decide) (by decide)

/-- C7: comment stripping is transparent: "1 # comment\n+2" tokenizes
and parses exactly like "1\n+2"; the comment loop discards every
character up to and not including the terminating newline or carriage
return, and an input that ends inside a comment yields EndOfInput. -/
theorem comment_transparency :
    tokenize "1 # comment\n+2" = tokenize "1\n+2" ∧
    parseExprTop "1 # comment\n+2" = parseExprTop "1\n+2" ∧
    (∀ (l rest : List Char) (d : Char), (∀ c ∈ l, c ≠ '\n' ∧ c ≠ '\r') →
      (d = '\n' ∨ d = '\r') → commentLoop (l ++ d :: rest) = (some d, rest)) ∧
    (∀ l : List Char, (∀ c ∈ l, c ≠ '\n' ∧ c ≠ '\r') → commentLoop l = (none, [])) ∧
    (∀ l : List Char, (∀ c ∈ l, c ≠ '\n' ∧ c ≠ '\r') →
      gettok ⟨some '#', l⟩ = (Token.eof, ⟨none, []⟩)) := by
  refine ⟨rfl, rfl, fun l rest d h hd => commentLoop_append l d rest h hd,
    commentLoop_nonewline, ?_⟩
  intro l h
  unfold gettok
  rw [gettokF]
  dsimp only
  have hss : skipSpaces (some '#') l = (some '#', l) := by
    rw [skipSpaces.eq_def]
    dsimp only
    rw [if_neg (by decide)]
  rw [hss]
  dsimp only
  rw [if_neg (by decide), if_neg (by decide), if_pos (by decide)]
  rw [commentLoop_nonewline l h]

/-- C7 witness: the general comment-rule conjuncts at concrete inputs:
a comment body terminated by a newline, one running to end of input,
and a whole-input comment read by `gettok`. -/
theorem comment_transparency_witness :
    commentLoop ([' ', 'x'] ++ '\n' :: ['y']) = (some '\n', ['y']) ∧
    commentLoop [' ', 'x'] = (none, []) ∧
    gettok ⟨some '#', ['a']⟩ = (Token.eof, ⟨none, []⟩) :=
  ⟨comment_transparency.2.2.1 [' ', 'x'] ['y'] '\n' (by decide) (Or.inl rfl),
   comment_transparency.2.2.2.1 [' ', 'x'] (by decide),
   comment_transparency.2.2.2.2 ['a'] (by decide)⟩

/-- C4: when a parse operation detects a malformed construct itself
(rather than propagating a sub-parse failure), it returns the failure
with the current-token slot still holding the offending token:
ParsePrimary and ParsePrototype fail without advancing at all, and the
closing-delimiter checks of ParseParenExpr, the argument-list loop of
ParseIdentifierExpr, and ParsePrototype fail in the exact state whose
current token failed the check. -/
theorem error_no_advance :
    (∀ (fuel : Nat) (st : PState), (∀ s, curTok st ≠ Token.ident s) →
      (∀ v, curTok st ≠ Token.number v) → (∀ c, curTok st = Token.sym c → c ≠ '(') →
      ParsePrimary (fuel+1) st = (PResult.err "unknown token when expecting an expression", st)) ∧
    (∀ (fuel : Nat) (st : PState) (e : ExprAST) (st1 : PState),
      ParseExpression fuel (advance st) = (PResult.ok e, st1) → curTok st1 ≠ Token.sym ')' →
      ParseParenExpr (fuel+1) st = (PResult.err "expected ')'", st1)) ∧
    (∀ (fuel : Nat) (acc : List ExprAST) (st : PState) (arg : ExprAST) (st1 : PState),
      ParseExpression fuel st = (PResult.ok arg, st1) →
      curTok st1 ≠ Token.sym ')' → curTok st1 ≠ Token.sym ',' →
      ParseArgs (fuel+1) acc st = (PResult.err "Expected ')' or ',' in argument list", st1)) ∧
    (∀ st : PState, (∀ s, curTok st ≠ Token.ident s) →
      ParsePrototype st = (PResult.err "Expected function name in prototype", st)) ∧
    (∀ (st : PState) (s : String), curTok st = Token.ident s →
      curTok (advance st) ≠ Token.sym '(' →
      ParsePrototype st = (PResult.err "Expected '(' in prototype", advance st)) ∧
    (∀ (st : PState) (s : String) (args : List String) (st2 : PState),
      curTok st = Token.ident s → curTok (advance st) = Token.sym '(' →
      ProtoArgs [] (advance st) = (args, st2) → curTok st2 ≠ Token.sym ')' →
      ParsePrototype st = (PResult.err "Expected ')' in prototype", st2)) := by
  refine ⟨?_, ?_, ?_, ?_, ?_, ?_⟩
  · intro fuel st h1 h2 h3
    rw [ParsePrimary]
    cases hct : curTok st with
    | ident s => exact absurd hct (h1 s)
    | number v => exact absurd hct (h2 v)
    | sym c =>
      dsimp only
      rw [if_neg (h3 c hct)]
    | eof => rfl
    | kdef => rfl
    | kextern => rfl
  · intro fuel st e st1 he hne
    rw [ParseParenExpr, he]
    dsimp only
    rw [if_neg hne]
  · intro fuel acc st arg st1 he hne1 hne2
    rw [ParseArgs, he]
    dsimp only
    rw [if_neg hne1, if_pos hne2]
  · intro st h1
    rw [ParsePrototype]
    cases hct : curTok st with
    | ident s => exact absurd hct (h1 s)
    | number v => rfl
    | sym c => rfl
    | eof => rfl
    | kdef => rfl
    | kextern => rfl
  · intro st s hct hnp
    rw [ParsePrototype, hct]
    dsimp only
    rw [if_pos hnp]
  · intro st s args st2 hct hp hargs hnr
    rw [ParsePrototype, hct]
    dsimp only
    rw [if_neg (fun hn => hn hp), hargs]
    dsimp only
    rw [if_pos hnr]

/-- C4 witness: each self-detected error site at a concrete stream:
a primary on ';', a parenthesized expression missing its ')', an
argument list missing both ')' and ',', and the three prototype error
sites. -/
theorem error_no_advance_witness :
    ParsePrimary 1 [Token.sym ';'] =
      (PResult.err "unknown token when expecting an expression", [Token.sym ';']) ∧
    ParseParenExpr 7 [Token.sym '(', Token.number 1] = (PResult.err "expected ')'", []) ∧
    ParseArgs 7 [] [Token.number 1, Token.sym ';'] =
      (PResult.err "Expected ')' or ',' in argument list", [Token.sym ';']) ∧
    ParsePrototype [Token.kdef] = (PResult.err "Expected function name in prototype", [Token.kdef]) ∧
    ParsePrototype [Token.ident "f", Token.kdef] =
      (PResult.err "Expected '(' in prototype", [Token.kdef]) ∧
    ParsePrototype [Token.ident "f", Token.sym '(', Token.sym ';'] =
      (PResult.err "Expected ')' in prototype", [Token.sym ';']) :=
  ⟨error_no_advance.1 0 [Token.sym ';'] (fun s h => Token.noConfusion h)
      (fun v h => Token.noConfusion h) (fun c hc => by cases hc; decide),
   error_no_advance.2.1 6 [Token.sym '(', Token.number 1] (ExprAST.NumberExpr 1) [] rfl
      (by decide),
   error_no_advance.2.2.1 6 [] [Token.number 1, Token.sym ';'] (ExprAST.NumberExpr 1)
      [Token.sym ';'] rfl (by decide) (by decide),
   error_no_advance.2.2.2.1 [Token.kdef] (fun s h => Token.noConfusion h),
   error_no_advance.2.2.2.2.1 [Token.ident "f", Token.kdef] "f" rfl (by decide),
   error_no_advance.2.2.2.2.2 [Token.ident "f", Token.sym '(', Token.sym ';'] "f" []
      [Token.sym ';'] rfl rfl rfl (by decide)⟩

theorem advance_length (st : PState) : (advance st).length ≤ st.length := by
  cases st <;> simp [advance]

theorem parseLen : ∀ fuel : Nat,
    (∀ st, (ParseExpression fuel st).2.length ≤ st.length) ∧
    (∀ st, (ParsePrimary fuel st).2.length ≤ st.length) ∧
    (∀ st, (ParseParenExpr fuel st).2.length ≤ st.length) ∧
    (∀ s st, (ParseIdentifierExpr fuel s st).2.length ≤ st.length) ∧
    (∀ acc st, (ParseArgs fuel acc st).2.length ≤ st.length) ∧
    (∀ p lhs st, (ParseBinOpRHS fuel p lhs st).2.length ≤ st.length) := by
  intro fuel
  induction fuel with
  | zero =>
    exact ⟨fun st => Nat.le_refl _, fun st => Nat.le_refl _, fun st => Nat.le_refl _,
      fun s st => Nat.le_refl _, fun acc st => Nat.le_refl _, fun p lhs st => Nat.le_refl _⟩
  | succ f ih =>
    obtain ⟨ihE, ihP, ihParen, ihI, ihA, ihB⟩ := ih
    refine ⟨?_, ?_, ?_, ?_, ?_, ?_⟩
    · intro st
      rw [ParseExpression]
      rcases hp : ParsePrimary f st with ⟨r, st1⟩
      have h1 : st1.length ≤ st.length := by
        have h2 := ihP st; rw [hp] at h2; exact h2
      cases r with
      | ok lhs => exact Nat.le_trans (ihB 0 lhs st1) h1
      | err m => exact h1
      | fuelOut => exact h1
    · intro st
      rw [ParsePrimary]
      cases hct : curTok st with
      | ident s => exact ihI s st
      | number v =>
        simp only [ParseNumberExpr]
        exact advance_length st
      | sym c =>
        dsimp only
        split
        · exact ihParen st
        · exact Nat.le_refl _
      | eof => exact Nat.le_refl _
      | kdef => exact Nat.le_refl _
      | kextern => exact Nat.le_refl _
    · intro st
      rw [ParseParenExpr]
      rcases he : ParseExpression f (advance st) with ⟨r, st2⟩
      have h1 : st2.length ≤ st.length := by
        have h2 := ihE (advance st); rw [he] at h2
        exact Nat.le_trans h2 (advance_length st)
      cases r with
      | ok v =>
        dsimp only
        split
        · exact Nat.le_trans (advance_length st2) h1
        · exact h1
      | err m => exact h1
      | fuelOut => exact h1
    · intro s st
      rw [ParseIdentifierExpr]
      dsimp only
      split
      · exact advance_length st
      · split
        · exact Nat.le_trans (advance_length _)
            (Nat.le_trans (advance_length _) (advance_length _))
        · rcases ha : ParseArgs f [] (advance (advance st)) with ⟨r, st3⟩
          have h1 : st3.length ≤ st.length := by
            have h2 := ihA [] (advance (advance st)); rw [ha] at h2
            exact Nat.le_trans h2 (Nat.le_trans (advance_length _) (advance_length _))
          cases r with
          | ok args => exact Nat.le_trans (advance_length st3) h1
          | err m => exact h1
          | fuelOut => exact h1
    · intro acc st
      rw [ParseArgs]
      rcases he : ParseExpression f st with ⟨r, st1⟩
      have h1 : st1.length ≤ st.length := by
        have h2 := ihE st; rw [he] at h2; exact h2
      cases r with
      | ok arg =>
        dsimp only
        split
        · exact h1
        · split
          · exact h1
          · exact Nat.le_trans (ihA (acc ++ [arg]) (advance st1))
              (Nat.le_trans (advance_length st1) h1)
      | err m => exact h1
      | fuelOut => exact h1
    · intro p lhs st
      rw [ParseBinOpRHS]
      dsimp only
      split
      · exact Nat.le_refl _
      · rcases hp : ParsePrimary f (advance st) with ⟨r, st2⟩
        have h1 : st2.length ≤ st.length := by
          have h2 := ihP (advance st); rw [hp] at h2
          exact Nat.le_trans h2 (advance_length st)
        cases r with
        | ok rhs =>
          dsimp only
          split
          · rcases hc : ParseBinOpRHS f (GetTokPrecedence (curTok st) + 1) rhs st2 with ⟨r2, st3⟩
            have h2 : st3.length ≤ st.length := by
              have h3 := ihB (GetTokPrecedence (curTok st) + 1) rhs st2; rw [hc] at h3
              exact Nat.le_trans h3 h1
            cases r2 with
            | ok rhs2 => exact Nat.le_trans (ihB p _ st3) h2
            | err m => exact h2
            | fuelOut => exact h2
          · exact Nat.le_trans (ihB p _ st2) h1
        | err m => exact h1
        | fuelOut => exact h1

theorem ParsePrimary_ok_lt : ∀ (fuel : Nat) (st : PState) (e : ExprAST) (st2 : PState),
    ParsePrimary fuel st = (PResult.ok e, st2) → st2.length < st.length := by
  intro fuel st e st2 h
  cases fuel with
  | zero => rw [ParsePrimary] at h; simp at h
  | succ f =>
    rw [ParsePrimary] at h
    cases st with
    | nil => simp only [curTok, List.headD] at h; simp at h
    | cons t rest =>
      simp only [curTok, List.headD] at h
      cases t with
      | eof => simp at h
      | kdef => simp at h
      | kextern => simp at h
      | number v =>
        dsimp only at h
        simp only [ParseNumberExpr, advance, List.tail_cons, Prod.mk.injEq,
          PResult.ok.injEq] at h
        obtain ⟨-, h2⟩ := h
        subst h2
        simp
      | ident s =>
        dsimp only at h
        cases f with
        | zero => rw [ParseIdentifierExpr.eq_def] at h; simp at h
        | succ g =>
          rw [ParseIdentifierExpr.eq_def] at h
          dsimp only at h
          split at h
          · simp only [Prod.mk.injEq, PResult.ok.injEq] at h
            obtain ⟨-, h2⟩ := h
            subst h2
            simp [advance]
          · split at h
            · simp only [Prod.mk.injEq, PResult.ok.injEq] at h
              obtain ⟨-, h2⟩ := h
              subst h2
              have h3 := advance_length (advance (advance (Token.ident s :: rest)))
              have h4 := advance_length (advance (Token.ident s :: rest))
              simp only [advance, List.tail_cons, List.length_cons] at h3 h4 ⊢
              have h5 := advance_length rest
              simp only [advance] at h5
              omega
            · rcases ha : ParseArgs g [] (advance (advance (Token.ident s :: rest)))
                with ⟨r, st3⟩
              rw [ha] at h
              cases r with
              | ok args =>
                dsimp only at h
                simp only [Prod.mk.injEq, PResult.ok.injEq] at h
                obtain ⟨-, h2⟩ := h
                subst h2
                have h3 := (parseLen g).2.2.2.2.1 [] (advance (advance (Token.ident s :: rest)))
                rw [ha] at h3
                have h4 := advance_length st3
                have h5 := advance_length rest
                simp only [advance, List.tail_cons, List.length_cons] at h3 h4 h5 ⊢
                omega
              | err m => simp at h
              | fuelOut => simp at h
      | sym c =>
        dsimp only at h
        split at h
        · cases f with
          | zero => rw [ParseParenExpr] at h; simp at h
          | succ g =>
            rw [ParseParenExpr] at h
            rcases he : ParseExpression g (advance (Token.sym c :: rest)) with ⟨r, stx⟩
            rw [he] at h
            cases r with
            | ok v =>
              dsimp only at h
              split at h
              · simp only [Prod.mk.injEq, PResult.ok.injEq] at h
                obtain ⟨-, h2⟩ := h
                subst h2
                have h3 := (parseLen g).1 (advance (Token.sym c :: rest))
                rw [he] at h3
                have h4 := advance_length stx
                simp only [advance, List.tail_cons, List.length_cons] at h3 h4 ⊢
                omega
              · simp at h
            | err m => simp at h
            | fuelOut => simp at h
        · simp at h

theorem ParseExpression_ok_lt : ∀ (fuel : Nat) (st : PState) (e : ExprAST) (st2 : PState),
    ParseExpression fuel st = (PResult.ok e, st2) → st2.length < st.length := by
  intro fuel st e st2 h
  cases fuel with
  | zero => rw [ParseExpression] at h; simp at h
  | succ f =>
    rw [ParseExpression] at h
    rcases hp : ParsePrimary f st with ⟨r, st1⟩
    rw [hp] at h
    cases r with
    | ok lhs =>
      dsimp only at h
      have h1 := (parseLen f).2.2.2.2.2 0 lhs st1
      rw [h] at h1
      exact Nat.lt_of_le_of_lt h1 (ParsePrimary_ok_lt f st lhs st1 hp)
    | err m => simp at h
    | fuelOut => simp at h

theorem advance_length_eq (st : PState) : (advance st).length = st.length - 1 := by
  cases st <;> simp [advance]

theorem length_of_curTok_sym {l : PState} {c : Char} (h : curTok l = Token.sym c) :
    1 ≤ l.length := by
  cases l with
  | nil => simp [curTok] at h
  | cons t rest => simp

theorem parseNoFuel : ∀ fuel : Nat,
    (∀ st : PState, 3 * st.length + 3 ≤ fuel → (ParseExpression fuel st).1 ≠ PResult.fuelOut) ∧
    (∀ st : PState, 3 * st.length + 2 ≤ fuel → (ParsePrimary fuel st).1 ≠ PResult.fuelOut) ∧
    (∀ st : PState, st ≠ [] → 3 * st.length + 1 ≤ fuel →
      (ParseParenExpr fuel st).1 ≠ PResult.fuelOut) ∧
    (∀ (s : String) (st : PState), 3 * st.length + 1 ≤ fuel →
      (ParseIdentifierExpr fuel s st).1 ≠ PResult.fuelOut) ∧
    (∀ (acc : List ExprAST) (st : PState), 3 * st.length + 4 ≤ fuel →
      (ParseArgs fuel acc st).1 ≠ PResult.fuelOut) ∧
    (∀ (p : Int) (lhs : ExprAST) (st : PState), 3 * st.length + 4 ≤ fuel →
      (ParseBinOpRHS fuel p lhs st).1 ≠ PResult.fuelOut) := by
  intro fuel
  induction fuel with
  | zero =>
    exact ⟨fun st h => by omega, fun st h => by omega, fun st h1 h => by omega,
      fun s st h => by omega, fun acc st h => by omega, fun p lhs st h => by omega⟩
  | succ f ih =>
    obtain ⟨ihE, ihP, ihParen, ihI, ihA, ihB⟩ := ih
    refine ⟨?_, ?_, ?_, ?_, ?_, ?_⟩
    · intro st hb
      rw [ParseExpression]
      rcases hp : ParsePrimary f st with ⟨r, st1⟩
      cases r with
      | ok lhs =>
        dsimp only
        have hlt := ParsePrimary_ok_lt f st lhs st1 hp
        exact ihB 0 lhs st1 (by omega)
      | err m => simp
      | fuelOut =>
        exfalso
        have h2 := ihP st (by omega)
        rw [hp] at h2
        exact h2 rfl
    · intro st hb
      rw [ParsePrimary]
      cases hct : curTok st with
      | ident s => exact ihI s st (by omega)
      | number v => simp [ParseNumberExpr]
      | sym c =>
        dsimp only
        split
        · refine ihParen st ?_ (by omega)
          intro h0
          subst h0
          simp [curTok] at hct
        · simp
      | eof => simp
      | kdef => simp
      | kextern => simp
    · intro st hne hb
      rw [ParseParenExpr]
      rcases he : ParseExpression f (advance st) with ⟨r, st2⟩
      cases r with
      | ok v =>
        dsimp only
        split
        · simp
        · simp
      | err m => simp
      | fuelOut =>
        exfalso
        have hlen : (advance st).length + 1 = st.length := by
          cases st with
          | nil => exact absurd rfl hne
          | cons t rest => simp [advance]
        have h2 := ihE (advance st) (by omega)
        rw [he] at h2
        exact h2 rfl
    · intro s st hb
      rw [ParseIdentifierExpr]
      dsimp only
      split
      · simp
      · next h1 =>
        have h1e : curTok (advance st) = Token.sym '(' := not_not.mp h1
        split
        · simp
        · rcases ha : ParseArgs f [] (advance (advance st)) with ⟨r, st3⟩
          cases r with
          | ok args => simp
          | err m => simp
          | fuelOut =>
            exfalso
            have ha1 : 1 ≤ (advance st).length := length_of_curTok_sym h1e
            have ha2 := advance_length_eq st
            have ha3 := advance_length_eq (advance st)
            have h2 := ihA [] (advance (advance st)) (by omega)
            rw [ha] at h2
            exact h2 rfl
    · intro acc st hb
      rw [ParseArgs]
      rcases he : ParseExpression f st with ⟨r, st1⟩
      cases r with
      | ok arg =>
        dsimp only
        split
        · simp
        · split
          · simp
          · have hlt := ParseExpression_ok_lt f st arg st1 he
            have ha2 := advance_length_eq st1
            exact ihA (acc ++ [arg]) (advance st1) (by omega)
      | err m => simp
      | fuelOut =>
        exfalso
        have h2 := ihE st (by omega)
        rw [he] at h2
        exact h2 rfl
    · intro p lhs st hb
      rw [ParseBinOpRHS]
      dsimp only
      split
      · simp
      · rcases hp : ParsePrimary f (advance st) with ⟨r, st2⟩
        cases r with
        | ok rhs =>
          dsimp only
          have hlt := ParsePrimary_ok_lt f (advance st) rhs st2 hp
          have ha2 := advance_length_eq st
          split
          · rcases hc : ParseBinOpRHS f (GetTokPrecedence (curTok st) + 1) rhs st2 with ⟨r2, st3⟩
            cases r2 with
            | ok rhs2 =>
              dsimp only
              have h3 := (parseLen f).2.2.2.2.2 (GetTokPrecedence (curTok st) + 1) rhs st2
              rw [hc] at h3
              dsimp only at h3
              exact ihB p _ st3 (by omega)
            | err m => simp
            | fuelOut =>
              exfalso
              have h2 := ihB (GetTokPrecedence (curTok st) + 1) rhs st2 (by omega)
              rw [hc] at h2
              exact h2 rfl
          · exact ihB p _ st2 (by omega)
        | err m => simp
        | fuelOut =>
          exfalso
          have ha2 := advance_length st
          have h2 := ihP (advance st) (by omega)
          rw [hp] at h2
          exact h2 rfl

theorem ParseBinOpRHS_exit (fuel : Nat) (p : Int) (lhs : ExprAST) (st : PState)
    (h : GetTokPrecedence (curTok st) < p) :
    ParseBinOpRHS (fuel+1) p lhs st = (PResult.ok lhs, st) := by
  rw [ParseBinOpRHS]
  dsimp only
  rw [if_pos h]

/-- C9: the precedence-climbing loop terminates on every finite token
stream, for every minimum precedence and left-hand side: at fuel
3n+4 (n the stream length) ParseBinOpRHS never exhausts its fuel, it
returns lhs unchanged as soon as the current token's precedence is
below the minimum, and ParseExpression is likewise total at fuel 3n+3. -/
theorem parser_terminates :
    (∀ (exprPrec : Int) (lhs : ExprAST) (st : PState),
      (ParseBinOpRHS (3 * st.length + 4) exprPrec lhs st).1 ≠ PResult.fuelOut) ∧
    (∀ (exprPrec : Int) (lhs : ExprAST) (st : PState),
      GetTokPrecedence (curTok st) < exprPrec →
      ParseBinOpRHS (3 * st.length + 4) exprPrec lhs st = (PResult.ok lhs, st)) ∧
    (∀ st : PState, (ParseExpression (3 * st.length + 3) st).1 ≠ PResult.fuelOut) :=
  ⟨fun p lhs st => (parseNoFuel (3 * st.length + 4)).2.2.2.2.2 p lhs st (Nat.le_refl _),
   fun p lhs st h => ParseBinOpRHS_exit (3 * st.length + 3) p lhs st h,
   fun st => (parseNoFuel (3 * st.length + 3)).1 st (Nat.le_refl _)⟩

/-- C9 witness: the termination bounds and the below-minimum exit at
the empty stream. -/
theorem parser_terminates_witness :
    (ParseBinOpRHS 4 0 (ExprAST.NumberExpr 1) []).1 ≠ PResult.fuelOut ∧
    ParseBinOpRHS 4 5 (ExprAST.NumberExpr 1) [] = (PResult.ok (ExprAST.NumberExpr 1), []) ∧
    (ParseExpression 3 []).1 ≠ PResult.fuelOut :=
  ⟨parser_terminates.1 0 (ExprAST.NumberExpr 1) [],
   parser_terminates.2.1 5 (ExprAST.NumberExpr 1) [] (by decide),
   parser_terminates.2.2 []⟩

theorem ParseBinOpRHS_ok_prec : ∀ (fuel : Nat) (p : Int) (lhs : ExprAST) (st : PState)
    (e : ExprAST) (st2 : PState), ParseBinOpRHS fuel p lhs st = (PResult.ok e, st2) →
    GetTokPrecedence (curTok st2) < p := by
  intro fuel
  induction fuel with
  | zero => intro p lhs st e st2 h; rw [ParseBinOpRHS] at h; simp at h
  | succ f ih =>
    intro p lhs st e st2 h
    rw [ParseBinOpRHS] at h
    dsimp only at h
    split at h
    · next hcond =>
      simp only [Prod.mk.injEq, PResult.ok.injEq] at h
      obtain ⟨-, h2⟩ := h
      subst h2
      exact hcond
    · rcases hp : ParsePrimary f (advance st) with ⟨r, stx⟩
      rw [hp] at h
      cases r with
      | ok rhs =>
        dsimp only at h
        split at h
        · rcases hc : ParseBinOpRHS f (GetTokPrecedence (curTok st) + 1) rhs stx with ⟨r2, st3⟩
          rw [hc] at h
          cases r2 with
          | ok rhs2 => exact ih p _ st3 e st2 h
          | err m => simp at h
          | fuelOut => simp at h
        · exact ih p _ stx e st2 h
      | err m => simp at h
      | fuelOut => simp at h

theorem GetTokPrecedence_neg (t : Token) (h : GetTokPrecedence t < 0) :
    GetTokPrecedence t = -1 := by
  cases t with
  | sym c =>
    rw [GetTokPrecedence] at h ⊢
    split
    · rfl
    · next h1 =>
      split
      · rfl
      · next h2 =>
        exfalso
        rw [if_neg h1, if_neg h2] at h
        omega
  | eof => rfl
  | kdef => rfl
  | kextern => rfl
  | ident s => rfl
  | number v => rfl

theorem ParseExpression_ok_prec : ∀ (fuel : Nat) (st : PState) (e : ExprAST) (st2 : PState),
    ParseExpression fuel st = (PResult.ok e, st2) → GetTokPrecedence (curTok st2) = -1 := by
  intro fuel st e st2 h
  cases fuel with
  | zero => rw [ParseExpression] at h; simp at h
  | succ f =>
    rw [ParseExpression] at h
    rcases hp : ParsePrimary f st with ⟨r, st1⟩
    rw [hp] at h
    cases r with
    | ok lhs =>
      dsimp only at h
      exact GetTokPrecedence_neg _ (ParseBinOpRHS_ok_prec f 0 lhs st1 e st2 h)
    | err m => simp at h
    | fuelOut => simp at h

theorem ParseArgs_ok_rparen : ∀ (fuel : Nat) (acc : List ExprAST) (st : PState)
    (args : List ExprAST) (st3 : PState),
    ParseArgs fuel acc st = (PResult.ok args, st3) → curTok st3 = Token.sym ')' := by
  intro fuel
  induction fuel with
  | zero => intro acc st args st3 h; rw [ParseArgs] at h; simp at h
  | succ f ih =>
    intro acc st args st3 h
    rw [ParseArgs] at h
    rcases he : ParseExpression f st with ⟨r, st1⟩
    rw [he] at h
    cases r with
    | ok arg =>
      dsimp only at h
      split at h
      · next hcond =>
        simp only [Prod.mk.injEq, PResult.ok.injEq] at h
        obtain ⟨-, h2⟩ := h
        subst h2
        exact hcond
      · split at h
        · simp at h
        · exact ih (acc ++ [arg]) (advance st1) args st3 h
    | err m => simp at h
    | fuelOut => simp at h

/-- C10: on success each parse operation leaves the current-token slot
at the first token after its construct: ParseNumberExpr consumes
exactly the literal; ParseParenExpr and the call form of
ParseIdentifierExpr consume their trailing ')'; the variable form
consumes just the identifier; ParseArgs stops with ')' current (for
its caller to eat); ParseExpression, and hence the body of
ParseDefinition and ParseTopLevelExpr, stops exactly on the first
non-operator token; ParsePrototype consumes its ')'; ParseExtern is
ParsePrototype after the keyword; and no operation consumes beyond its
construct (result streams never grow). -/
theorem token_slot_after_success :
    (∀ (v : Rat) (st : PState),
      ParseNumberExpr v st = (PResult.ok (ExprAST.NumberExpr v), advance st)) ∧
    (∀ (fuel : Nat) (st : PState) (e : ExprAST) (st1 : PState),
      ParseExpression fuel (advance st) = (PResult.ok e, st1) → curTok st1 = Token.sym ')' →
      ParseParenExpr (fuel+1) st = (PResult.ok e, advance st1)) ∧
    (∀ (fuel : Nat) (s : String) (st : PState), curTok (advance st) ≠ Token.sym '(' →
      ParseIdentifierExpr (fuel+1) s st = (PResult.ok (ExprAST.VariableExpr s), advance st)) ∧
    (∀ (fuel : Nat) (s : String) (st : PState), curTok (advance st) = Token.sym '(' →
      curTok (advance (advance st)) = Token.sym ')' →
      ParseIdentifierExpr (fuel+1) s st =
        (PResult.ok (ExprAST.CallExpr s []), advance (advance (advance st)))) ∧
    (∀ (fuel : Nat) (s : String) (st : PState) (args : List ExprAST) (st3 : PState),
      curTok (advance st) = Token.sym '(' → curTok (advance (advance st)) ≠ Token.sym ')' →
      ParseArgs fuel [] (advance (advance st)) = (PResult.ok args, st3) →
      ParseIdentifierExpr (fuel+1) s st = (PResult.ok (ExprAST.CallExpr s args), advance st3)) ∧
    (∀ (fuel : Nat) (acc : List ExprAST) (st : PState) (args : List ExprAST) (st3 : PState),
      ParseArgs fuel acc st = (PResult.ok args, st3) → curTok st3 = Token.sym ')') ∧
    (∀ (fuel : Nat) (st : PState) (e : ExprAST) (st2 : PState),
      ParseExpression fuel st = (PResult.ok e, st2) → GetTokPrecedence (curTok st2) = -1) ∧
    (∀ (st : PState) (s : String) (args : List String) (st2 : PState),
      curTok st = Token.ident s → curTok (advance st) = Token.sym '(' →
      ProtoArgs [] (advance st) = (args, st2) → curTok st2 = Token.sym ')' →
      ParsePrototype st = (PResult.ok ⟨s, args⟩, advance st2)) ∧
    (∀ st : PState, ParseExtern st = ParsePrototype (advance st)) ∧
    (∀ (fuel : Nat) (st : PState) (fn : FunctionAST) (st2 : PState),
      ParseDefinition fuel st = (PResult.ok fn, st2) → GetTokPrecedence (curTok st2) = -1) ∧
    (∀ (fuel : Nat) (st : PState) (fn : FunctionAST) (st2 : PState),
      ParseTopLevelExpr fuel st = (PResult.ok fn, st2) → GetTokPrecedence (curTok st2) = -1) ∧
    (∀ (fuel : Nat) (st : PState), (ParseExpression fuel st).2.length ≤ st.length) := by
  refine ⟨fun v st => rfl, ?_, ?_, ?_, ?_, ParseArgs_ok_rparen, ParseExpression_ok_prec,
    ?_, fun st => rfl, ?_, ?_, fun fuel st => (parseLen fuel).1 st⟩
  · intro fuel st e st1 he hc
    rw [ParseParenExpr, he]
    dsimp only
    rw [if_pos hc]
  · intro fuel s st h
    rw [ParseIdentifierExpr]
    dsimp only
    rw [if_pos h]
  · intro fuel s st h1 h2
    rw [ParseIdentifierExpr]
    dsimp only
    rw [if_neg (fun hn => hn h1), if_pos h2]
  · intro fuel s st args st3 h1 h2 ha
    rw [ParseIdentifierExpr]
    dsimp only
    rw [if_neg (fun hn => hn h1), if_neg h2, ha]
  · intro st s args st2 hct hp hargs hr
    rw [ParsePrototype, hct]
    dsimp only
    rw [if_neg (fun hn => hn hp), hargs]
    dsimp only
    rw [if_neg (fun hn => hn hr)]
  · intro fuel st fn st2 h
    rw [ParseDefinition] at h
    rcases hpr : ParsePrototype (advance st) with ⟨r, stq⟩
    rw [hpr] at h
    cases r with
    | ok proto =>
      dsimp only at h
      rcases he2 : ParseExpression fuel stq with ⟨r2, st3⟩
      rw [he2] at h
      cases r2 with
      | ok e =>
        dsimp only at h
        simp only [Prod.mk.injEq, PResult.ok.injEq] at h
        obtain ⟨-, h2⟩ := h
        subst h2
        exact ParseExpression_ok_prec fuel stq e st3 he2
      | err m => simp at h
      | fuelOut => simp at h
    | err m => simp at h
    | fuelOut => simp at h
  · intro fuel st fn st2 h
    rw [ParseTopLevelExpr] at h
    rcases he2 : ParseExpression fuel st with ⟨r2, st3⟩
    rw [he2] at h
    cases r2 with
    | ok e =>
      dsimp only at h
      simp only [Prod.mk.injEq, PResult.ok.injEq] at h
      obtain ⟨-, h2⟩ := h
      subst h2
      exact ParseExpression_ok_prec fuel st e st3 he2
    | err m => simp at h
    | fuelOut => simp at h

/-- C10 witness: the delimiter-consumption conjuncts at concrete
streams: a parenthesized number, a bare variable, an empty call, a
one-argument call, the argument-loop stop token, expression stop at
end of input, a prototype, and a top-level expression. -/
theorem token_slot_after_success_witness :
    ParseParenExpr 7 [Token.sym '(', Token.number 1, Token.sym ')']
      = (PResult.ok (ExprAST.NumberExpr 1), []) ∧
    ParseIdentifierExpr 1 "x" [Token.ident "x"]
      = (PResult.ok (ExprAST.VariableExpr "x"), []) ∧
    ParseIdentifierExpr 1 "f" [Token.ident "f", Token.sym '(', Token.sym ')']
      = (PResult.ok (ExprAST.CallExpr "f" []), []) ∧
    ParseIdentifierExpr 7 "f" [Token.ident "f", Token.sym '(', Token.number 1, Token.sym ')']
      = (PResult.ok (ExprAST.CallExpr "f" [ExprAST.NumberExpr 1]), []) ∧
    curTok [Token.sym ')'] = Token.sym ')' ∧
    GetTokPrecedence (curTok ([] : PState)) = -1 ∧
    ParsePrototype [Token.ident "f", Token.sym '(', Token.ident "x", Token.sym ')']
      = (PResult.ok ⟨"f", ["x"]⟩, []) ∧
    GetTokPrecedence (curTok ([Token.sym ')'] : PState)) = -1 :=
  ⟨token_slot_after_success.2.1 6 [Token.sym '(', Token.number 1, Token.sym ')']
     (ExprAST.NumberExpr 1) [Token.sym ')'] rfl rfl,
   token_slot_after_success.2.2.1 0 "x" [Token.ident "x"] (by decide),
   token_slot_after_success.2.2.2.1 0 "f" [Token.ident "f", Token.sym '(', Token.sym ')']
     rfl rfl,
   token_slot_after_success.2.2.2.2.1 6 "f"
     [Token.ident "f", Token.sym '(', Token.number 1, Token.sym ')']
     [ExprAST.NumberExpr 1] [Token.sym ')'] rfl (by decide) rfl,
   token_slot_after_success.2.2.2.2.2.1 6 [] [Token.number 1, Token.sym ')']
     [ExprAST.NumberExpr 1] [Token.sym ')'] rfl,
   token_slot_after_success.2.2.2.2.2.2.1 6 [Token.number 1] (ExprAST.NumberExpr 1) [] rfl,
   token_slot_after_success.2.2.2.2.2.2.2.1
     [Token.ident "f", Token.sym '(', Token.ident "x", Token.sym ')'] "f" ["x"]
     [Token.sym ')'] rfl rfl rfl rfl,
   token_slot_after_success.2.2.2.2.2.2.2.2.2.2.1 9
     [Token.number 2, Token.sym '+', Token.number 3, Token.sym ')']
     ⟨⟨"__anon_expr", []⟩, ExprAST.BinaryExpr '+' (ExprAST.NumberExpr 2) (ExprAST.NumberExpr 3)⟩
     [Token.sym ')'] rfl⟩
